import Mathlib

set_option linter.unusedVariables false

/-! A shallow embedding of the bsky client (src/bsky/client.py).  Strings are
modelled by Lean strings, the derived post timestamp by an integer (the
ISO-8601 parsing of the indexed_at field in add_post is abstracted into the
indexedAt field), the remote service by explicit scripted response values, and
a raised exception by an Except.error response or by a none result. -/

/-- Python str.strip on a list of characters. -/
def stripChars (l : List Char) : List Char :=
  ((l.dropWhile Char.isWhitespace).reverse.dropWhile Char.isWhitespace).reverse

/-- Python str.strip. -/
def pyStrip (s : String) : String := String.mk (stripChars s.data)

/-- Interpolation of an optional string inside a Python f-string. -/
def pyStr : Option String → String
  | some s => s
  | none => "None"

/-- Membership in the regex character class A-Za-z0-9_. -/
def isWordChar (c : Char) : Bool :=
  ('A' ≤ c && c ≤ 'Z') || ('a' ≤ c && c ≤ 'z') || ('0' ≤ c && c ≤ '9') || c = '_'

/-- Python re.sub of trailing underscores, client.py line 13. -/
def dropTrailingUnderscores (l : List Char) : List Char :=
  (l.reverse.dropWhile (fun c => c = '_')).reverse

/-- The stages of sanitize after the character filter: strip trailing
underscores, fall back to the literal token when empty, prefix an underscore
when the first character is a digit (client.py lines 13-17). -/
def sanitizeTail (base : List Char) : List Char :=
  match (if (dropTrailingUnderscores base).isEmpty then "_nohandle".data
      else dropTrailingUnderscores base) with
  | [] => ([] : List Char)
  | c :: rest => if c.isDigit then '_' :: c :: rest else c :: rest

/-- sanitize, client.py lines 7-18. -/
def sanitize (field : String) : String :=
  let cs := if List.isSuffixOf ".bsky.social".data field.data then
      field.data.take (field.data.length - 12)
    else field.data
  let cs := cs.map (fun c => if c = '.' then '_' else c)
  let cs := cs.map (fun c => if c = ' ' then '_' else c)
  String.mk ((sanitizeTail (cs.filter (fun c => isWordChar c))).take 16)

/-- An author record as delivered by the remote service. -/
structure AuthorV where
  did : String
  handle : String
  displayName : Option String
deriving DecidableEq

/-- The Author class, client.py lines 20-25. -/
structure Author where
  did : String
  handle : String
  display_name : Option String
  nick : String

/-- Constructor of Author: nick is sanitize(display_name or handle). -/
def Author.make (did handle : String) (display_name : Option String) : Author :=
  ⟨did, handle, display_name,
    sanitize (match display_name with
      | some d => if d = "" then handle else d
      | none => handle)⟩

/-- A repost reason; the by field is optional to mirror the hasattr probe at
client.py line 135. -/
structure Reason where
  by_ : Option AuthorV
deriving DecidableEq

/-- A reply parent reference; cid is optional to mirror the hasattr probe at
client.py line 116. -/
structure ParentRef where
  cid : Option String
  uri : String
deriving DecidableEq

structure Reply where
  parent : ParentRef
deriving DecidableEq

/-- One image of an images embed, client.py lines 176-179. -/
structure Image where
  alt : Option String
  fullsize : Option String
  thumb : String
deriving DecidableEq

/-- One feature of a rich-text facet; isLink mirrors the py_type test at
client.py line 153. -/
structure Feature where
  isLink : Bool
  uri : String
deriving DecidableEq

/-- A rich-text facet; isRichtext mirrors the py_type test at line 151. -/
structure Facet where
  isRichtext : Bool
  features : List Feature
deriving DecidableEq

mutual
/-- A post record: text body, optional reply reference, facets, and the
embedded value (used when the record is quoted inside another post). -/
inductive Rec where
  | mk (text : String) (reply : Option Reply) (facets : List Facet) (embed : EmbO)

/-- An optional embed (the EmbO.none case models an absent embed). -/
inductive EmbO where
  | none
  | some (e : Emb)

/-- An optional quoted record value (mirrors the hasattr probe at line 182). -/
inductive RecO where
  | none
  | some (r : Rec)

/-- The embed kinds dispatched on py_type in format_embed, lines 170-197. -/
inductive Emb where
  | images (imgs : List Image)
  | recordView (value : RecO) (authorName : Option String) (authorHandle : String) (uri : String)
  | video (alt : Option String) (cid : Option String)
  | external (uri : String)
  | otherKind
end

def Rec.text : Rec → String
  | .mk t _ _ _ => t

def Rec.reply : Rec → Option Reply
  | .mk _ r _ _ => r

def Rec.facets : Rec → List Facet
  | .mk _ _ f _ => f

def Rec.embed : Rec → EmbO
  | .mk _ _ _ e => e

/-- A post as held by the client; indexedAt is the derived timestamp _at and
reason is the _reason side channel attached by add_fv. -/
structure Post where
  cid : String
  uri : String
  author : AuthorV
  indexedAt : Int
  record : Rec
  embed : EmbO
  reason : Option Reason

/-- A timeline feed entry: a post plus an optional repost reason. -/
structure FeedView where
  post : Post
  reason : Option Reason

/-- The store portion of the AT session state: seen_posts, oldest, posts. -/
structure ATState where
  seen : List String
  oldest : Option Int
  posts : List Post

def initState : ATState := ⟨[], none, []⟩

/-- The watermark update of add_post, client.py lines 58-59. -/
def newOldest (o : Option Int) (t : Int) : Option Int :=
  match o with
  | none => some t
  | some w => if t < w then some t else some w

/-- add_post, client.py lines 54-62. -/
def add_post (s : ATState) (p : Post) : ATState × Option Post :=
  if p.cid ∈ s.seen then (s, none)
  else
    ({ seen := p.cid :: s.seen,
       oldest := newOldest s.oldest p.indexedAt,
       posts := s.posts ++ [p] }, some p)

/-- The reason attachment of add_fv, client.py line 51 (a mutation of the post
object that add_post just appended). -/
def applyReason (p : Post) (r : Option Reason) : Post :=
  match r with
  | some r0 => { p with reason := some r0 }
  | none => p

/-- add_fv, client.py lines 48-52.  When admission succeeded and the entry
carries a reason, the reason is attached to the freshly appended post object,
hence also to the last element of the posts list. -/
def add_fv (s : ATState) (fv : FeedView) : ATState × Option Post :=
  match add_post s fv.post with
  | (s1, some p) =>
    match fv.reason with
    | some r =>
      ({ s1 with posts := s1.posts.dropLast ++ [applyReason p (some r)] },
        some (applyReason p (some r)))
    | none => (s1, some p)
  | (s1, none) => (s1, none)

/-- get_author, client.py lines 101-108. -/
def get_author (post : Post) : Author :=
  let a := match post.reason with
    | some r =>
      match r.by_ with
      | some b => b
      | none => post.author
    | none => post.author
  Author.make a.did a.handle a.displayName

/-- The response object of client.get_posts. -/
structure GetPostsResponse where
  posts : List Post

/-- sync_post, client.py lines 91-99; the remote call is modelled by the
scripted response value, Except.error standing for a raised exception. -/
def sync_post (resp : Except Unit GetPostsResponse) : Option Post :=
  match resp with
  | Except.error _ => none
  | Except.ok r =>
    match r.posts with
    | [] => none
    | p :: _ => some p

/-- Splitting on the regex alternation of \r\n, \r and \n used at client.py
line 166 (leftmost alternative first, so \r\n is consumed as one break). -/
def splitNl : List Char → List Char → List String
  | [], cur => [String.mk cur.reverse]
  | '\r' :: '\n' :: rest, cur => String.mk cur.reverse :: splitNl rest []
  | '\r' :: rest, cur => String.mk cur.reverse :: splitNl rest []
  | '\n' :: rest, cur => String.mk cur.reverse :: splitNl rest []
  | c :: rest, cur => splitNl rest (c :: cur)

/-- format_record, client.py lines 162-168: strip the whole text, split on
line breaks, and keep (untrimmed) the lines that are not whitespace-only. -/
def format_record (record : Rec) : List String :=
  if record.text = "" then []
  else (splitNl (pyStrip record.text).data []).filter (fun l => pyStrip l != "")

/-- Python substring test, needle in hay. -/
def containsSub (needle hay : List Char) : Bool :=
  (List.range (hay.length + 1)).any (fun i => List.isPrefixOf needle (hay.drop i))

/-- format_links, client.py lines 145-160 (the unordered Python set is
modelled as an insertion-ordered deduplicated list). -/
def format_links (post : Post) (lines : List String) : List String :=
  let facetLinks := ((post.record.facets.filter (fun f => f.isRichtext)).map
      (fun f => (f.features.filter (fun x => x.isLink)).map (fun x => x.uri))).flatten
  let links := facetLinks ++ (match post.embed with
    | EmbO.some (Emb.external u) => [u]
    | _ => [])
  let links := links.eraseDups
  (links.filter (fun l => !(lines.any (fun line => containsSub l.data line.data)))).map
    (fun l => "🔗 " ++ l)

/-- Newline collapsing, x.alt.replace of a newline by a space. -/
def collapseNl (s : String) : String :=
  String.mk (s.data.map (fun c => if c = '\n' then ' ' else c))

/-- The alt text preparation of the images branch, client.py lines 177-178:
the stripped alt gains a trailing space before the length test. -/
def altRender (alt : Option String) : String :=
  let altText := match alt with
    | some a => if a = "" then "" else pyStrip (collapseNl a) ++ " "
    | none => ""
  if altText.length > 50 then String.mk (altText.data.take 47) ++ "..." else altText

def didPat : List Char := "did:plc:".data

/-- Python re.search for did:plc: followed by at least one non-slash char,
client.py line 190. -/
def findDid : List Char → Option String
  | [] => none
  | c :: rest =>
    if List.isPrefixOf didPat (c :: rest)
        && !(((c :: rest).drop 8).takeWhile (fun x => x ≠ '/')).isEmpty then
      some ("did:plc:" ++ String.mk (((c :: rest).drop 8).takeWhile (fun x => x ≠ '/')))
    else findDid rest

mutual
/-- format_embed, client.py lines 170-197, on an optional embed. -/
def format_embed : EmbO → String → List String
  | EmbO.none, _ => []
  | EmbO.some e, uri => format_embed1 e uri

/-- format_embed on a present embed, dispatching on the kind tag. -/
def format_embed1 : Emb → String → List String
  | Emb.images imgs, _ =>
    imgs.map (fun x =>
      "📷 " ++ altRender x.alt ++ (match x.fullsize with
        | some f => if f = "" then x.thumb else f
        | none => x.thumb) ++ " ")
  | Emb.recordView value aname ahandle ruri, _ =>
    match value with
    | RecO.some (Rec.mk t rep fac emb) =>
      let fl := format_record (Rec.mk t rep fac emb) ++ format_embed emb ruri
      ("💬 " ++ pyStr aname ++ " (@" ++ ahandle ++ "):") :: fl.map (fun l => " | " ++ l)
    | RecO.none => []
  | Emb.video alt cid, uri =>
    let altText := match alt with
      | some a => if a = "" then "" else pyStrip (collapseNl a) ++ " "
      | none => ""
    (match findDid uri.data, cid with
      | some did, some c =>
        if c = "" then []
        else ["🎥 " ++ altText ++ "https://atproto-browser.vercel.app/blob/" ++ did ++ "/" ++ c]
      | _, _ => [])
  | Emb.external _, _ => []
  | Emb.otherKind, _ => []
end

/-- The reply section of format_post, client.py lines 113-126: returns the
updated store, the parent header lines, and the reply_ok flag. -/
def replySection (s : ATState) (post : Post) (parentResp : Except Unit GetPostsResponse) :
    ATState × List String × Bool :=
  match post.record.reply with
  | none => (s, [], false)
  | some rep =>
    let replyOk := match rep.parent.cid with
      | some pc => decide (pc ∈ s.seen)
      | none => false
    if replyOk then (s, [], true)
    else
      match sync_post parentResp with
      | some parent =>
        let s1 := (add_post s parent).1
        let pf := format_record parent.record
        (s1,
          ("↩ " ++ pyStr parent.author.displayName ++ " (@" ++ parent.author.handle ++ "):")
            :: pf.map (fun l => " | " ++ l),
          false)
      | none => (s, [], false)

/-- The body lines of format_post, client.py lines 130-132 (the links are
checked against the record lines only, before the embed lines are added). -/
def bodyLines (post : Post) : List String :=
  let f1 := format_record post.record
  let f2 := f1 ++ format_links post f1
  f2 ++ format_embed post.embed post.uri

/-- format_post, client.py lines 110-143.  The Python statement
lines[0] = ... raises IndexError on an empty list; that partiality is
modelled by a none result. -/
def format_post (s : ATState) (post : Post) (parentResp : Except Unit GetPostsResponse) :
    Option (ATState × List String) :=
  match replySection s post parentResp with
  | (s1, lines, replyOk) =>
    let formatted := bodyLines post
    let isRepost := match post.reason with
      | some r => (r.by_).isSome
      | none => false
    if isRepost then
      some (s1, lines ++
        ("↻ " ++ pyStr post.author.displayName ++ " (@" ++ post.author.handle ++ "):")
          :: formatted.map (fun l => " | " ++ l))
    else
      let lines2 := lines ++ formatted
      if replyOk then
        match lines2 with
        | [] => none
        | l0 :: rest => some (s1, ("↪ " ++ l0) :: rest)
      else some (s1, lines2)

/-- The truthiness test on the cursor (Python treats an empty cursor string
like none at the break test of line 86). -/
def cursorTruthy : Option String → Bool
  | none => false
  | some c => decide (c ≠ "")

/-- A timeline page: the feed entries and the continuation cursor. -/
structure Page where
  feed : List FeedView
  cursor : Option String

/-- The Python oldest < timestamp comparison of client.py line 76 (only ever
reached with a set watermark). -/
def oldestLt : Option Int → Int → Bool
  | some w, t => decide (w < t)
  | none, _ => false

/-- One iteration of the for loop in sync_timeline, client.py lines 73-80. -/
def syncEntryStep (tlCursor : Option String) (s : ATState) (fv : FeedView) (acc : List Post) :
    ATState × Option String × List Post :=
  match add_fv s fv with
  | (s1, some p) =>
    if oldestLt s1.oldest p.indexedAt then (s1, tlCursor, acc ++ [p])
    else (s1, none, acc)
  | (s1, none) => (s1, none, acc)

/-- The for loop of sync_timeline over one feed page (the cursor was reset to
none at line 71 before the loop runs). -/
def syncFeedLoop (tlCursor : Option String) :
    ATState → List FeedView → Option String → List Post → ATState × Option String × List Post
  | s, [], cursor, acc => (s, cursor, acc)
  | s, fv :: rest, _, acc =>
    match syncEntryStep tlCursor s fv acc with
    | (s1, c1, acc1) => syncFeedLoop tlCursor s1 rest c1 acc1

/-- The while loop of sync_timeline, client.py lines 68-87, over the scripted
page responses; returns the final store, the returned post list, and the
number of page fetches performed.  An exhausted script ends the run. -/
def syncGo : ATState → List (Except Unit Page) → List Post → Nat → ATState × List Post × Nat
  | s, [], _, n => (s, [], n)
  | s, Except.error _ :: _, _, n => (s, [], n + 1)
  | s, Except.ok page :: rest, acc, n =>
    match syncFeedLoop page.cursor s page.feed none acc with
    | (s1, c1, acc1) =>
      if cursorTruthy c1 then syncGo s1 rest acc1 (n + 1) else (s1, acc1, n + 1)

/-- sync_timeline, client.py lines 64-89. -/
def sync_timeline (s : ATState) (pages : List (Except Unit Page)) : ATState × List Post × Nat :=
  syncGo s pages [] 0

/-- The store operations a client run may perform. -/
inductive StoreOp where
  | post (p : Post)
  | fv (e : FeedView)

def applyOp (s : ATState) : StoreOp → ATState
  | StoreOp.post p => (add_post s p).1
  | StoreOp.fv e => (add_fv s e).1

def applyOps (s : ATState) (ops : List StoreOp) : ATState := ops.foldl applyOp s

/-- The minimum derived timestamp of a list of posts, folded in admission
order exactly as the incremental watermark update does. -/
def minAt (ps : List Post) : Option Int :=
  ps.foldl (fun acc p => some (match acc with
    | none => p.indexedAt
    | some m => min m p.indexedAt)) none

/-- The store invariant tying seen_posts, posts and oldest together. -/
def StoreInv (s : ATState) : Prop :=
  (∀ c : String, c ∈ s.seen ↔ c ∈ s.posts.map Post.cid) ∧
  (s.posts.map Post.cid).Nodup ∧
  s.oldest = minAt s.posts

/-! Concrete inputs used by the closed witness and counterexample theorems. -/

def aliceA : AuthorV := ⟨"did:plc:alice", "alice.bsky.social", some "Alice"⟩

def bobA : AuthorV := ⟨"did:plc:bob", "bob.bsky.social", some "Bob"⟩

/-- A plain text post surfaced through a repost by Bob: the post author is
Alice and the repost reason names Bob. -/
def repostPost : Post :=
  ⟨"cidR", "at://alice/post/1", aliceA, 100, Rec.mk "hello" none [] EmbO.none,
    EmbO.none, some ⟨some bobA⟩⟩

def parentPost : Post :=
  ⟨"cidP", "at://p/1", aliceA, 50, Rec.mk "parent text" none [] EmbO.none, EmbO.none, none⟩

/-- A reply to parentPost whose record text is empty and which carries no
facets, embed or reason. -/
def replyEmptyPost : Post :=
  ⟨"cidQ", "at://q/1", bobA, 60, Rec.mk "" (some ⟨⟨some "cidP", "at://p/1"⟩⟩) [] EmbO.none,
    EmbO.none, none⟩

def stateWithParent : ATState := (add_post initState parentPost).1

def untrimmedRec : Rec := Rec.mk "a \nb" none [] EmbO.none

def alt50 : String := String.mk (List.replicate 50 'a')

def alt60 : String := String.mk (List.replicate 60 'a')

def img50 : Image := ⟨some alt50, some "U", "T"⟩

/-- A small concrete post maker for the sync and store witnesses. -/
def mkPost (cid : String) (t : Int) : Post :=
  ⟨cid, "at://x/" ++ cid, aliceA, t, Rec.mk "t" none [] EmbO.none, EmbO.none, none⟩

def wState : ATState := (add_post initState (mkPost "c0" 10)).1

def wFrs : List (FeedView × String) :=
  [(⟨mkPost "c1" 20, none⟩, "k1"), (⟨mkPost "c2" 30, none⟩, "k2")]

def wDupFv : FeedView := ⟨mkPost "c0" 10, none⟩

def wDupPage : Page := ⟨[wDupFv], none⟩

def wOps : List StoreOp :=
  [StoreOp.post (mkPost "c0" 10), StoreOp.post (mkPost "c0" 10),
   StoreOp.fv ⟨mkPost "c1" 20, some ⟨some bobA⟩⟩]

def wDupState : ATState := ⟨["cx"], some 5, [mkPost "cx" 5]⟩

def wDupFv2 : FeedView := ⟨mkPost "cx" 5, some ⟨some bobA⟩⟩

/-! ## Helper lemmas -/

theorem string_mk_eq_empty {l : List Char} (h : String.mk l = "") : l = [] :=
  congrArg String.data h

theorem mem_dropTrailingUnderscores {c : Char} {l : List Char}
    (h : c ∈ dropTrailingUnderscores l) : c ∈ l := by
  unfold dropTrailingUnderscores at h
  rw [List.mem_reverse] at h
  have h2 : c ∈ l.reverse := (List.dropWhile_sublist (fun c => c = '_')).subset h
  exact List.mem_reverse.mp h2

theorem sanitizeTail_ne_nil (B : List Char) : sanitizeTail B ≠ [] := by
  unfold sanitizeTail
  by_cases h : (dropTrailingUnderscores B).isEmpty
  · rw [if_pos h]
    decide
  · rw [if_neg h]
    rcases hB : dropTrailingUnderscores B with _ | ⟨c0, rest⟩
    · rw [hB] at h
      simp at h
    · by_cases hd : c0.isDigit
      · simp [hd]
      · simp [hd]

theorem sanitizeTail_word (B : List Char) (hB : ∀ c ∈ B, isWordChar c = true) :
    ∀ c ∈ sanitizeTail B, isWordChar c = true := by
  have hdt : ∀ c ∈ dropTrailingUnderscores B, isWordChar c = true :=
    fun c hc => hB c (mem_dropTrailingUnderscores hc)
  unfold sanitizeTail
  by_cases h : (dropTrailingUnderscores B).isEmpty
  · rw [if_pos h]
    decide
  · rw [if_neg h]
    rcases hB2 : dropTrailingUnderscores B with _ | ⟨c0, rest⟩
    · intro c hc
      simp at hc
    · rw [hB2] at hdt
      intro c hc
      have hc2 : c ∈ (if c0.isDigit then '_' :: c0 :: rest else c0 :: rest) := hc
      by_cases hd : c0.isDigit
      · rw [if_pos hd] at hc2
        rcases List.mem_cons.mp hc2 with h1 | h2
        · rw [h1]; decide
        · exact hdt c h2
      · rw [if_neg hd] at hc2
        exact hdt c hc2

theorem add_post_dup {s : ATState} {p : Post} (h : p.cid ∈ s.seen) :
    add_post s p = (s, none) := by
  unfold add_post
  rw [if_pos h]

theorem add_post_fresh {s : ATState} {p : Post} (h : ¬ p.cid ∈ s.seen) :
    add_post s p = (ATState.mk (p.cid :: s.seen) (newOldest s.oldest p.indexedAt)
      (s.posts ++ [p]), some p) := by
  unfold add_post
  rw [if_neg h]

theorem add_fv_dup {s : ATState} {fv : FeedView} (h : fv.post.cid ∈ s.seen) :
    add_fv s fv = (s, none) := by
  unfold add_fv
  rw [add_post_dup h]

theorem add_fv_fresh {s : ATState} {fv : FeedView} (h : ¬ fv.post.cid ∈ s.seen) :
    add_fv s fv = (ATState.mk (fv.post.cid :: s.seen)
      (newOldest s.oldest fv.post.indexedAt)
      (s.posts ++ [applyReason fv.post fv.reason]),
      some (applyReason fv.post fv.reason)) := by
  unfold add_fv
  rw [add_post_fresh h]
  rcases hr : fv.reason with _ | r
  · simp [applyReason]
  · simp [applyReason, List.dropLast_concat]

theorem applyReason_indexedAt (p : Post) (r : Option Reason) :
    (applyReason p r).indexedAt = p.indexedAt := by
  unfold applyReason
  cases r <;> rfl

theorem applyReason_cid (p : Post) (r : Option Reason) :
    (applyReason p r).cid = p.cid := by
  unfold applyReason
  cases r <;> rfl

theorem oldestLt_newOldest (o : Option Int) (t : Int) :
    oldestLt (newOldest o t) t = oldestLt o t := by
  cases o with
  | none =>
    simp only [newOldest, oldestLt]
    exact decide_eq_false (lt_irrefl t)
  | some w =>
    by_cases h : t < w
    · simp only [newOldest, if_pos h, oldestLt]
      rw [decide_eq_false (lt_irrefl t), decide_eq_false (by omega : ¬ w < t)]
    · simp only [newOldest, if_neg h, oldestLt]

/-! ## Claim theorems -/

/-- C2: the per-entry novelty decision of sync_timeline (client.py lines
73-80): the entry is counted as new, the result list extended and the cursor
advanced to the page cursor, exactly when admission succeeded and the post
derived timestamp is strictly newer than the watermark value that held before
this entry was admitted; otherwise the cursor is reset to none, which stops
paging. -/
theorem sync_novelty_decision (tlC : Option String) (s : ATState) (fv : FeedView)
    (acc : List Post) :
    syncEntryStep tlC s fv acc =
      (if (add_fv s fv).2.isSome && oldestLt s.oldest fv.post.indexedAt then
        ((add_fv s fv).1, tlC, acc ++ (add_fv s fv).2.toList)
      else ((add_fv s fv).1, none, acc)) := by
  by_cases h : fv.post.cid ∈ s.seen
  · unfold syncEntryStep
    rw [add_fv_dup h]
    rfl
  · unfold syncEntryStep
    rw [add_fv_fresh h]
    simp only [applyReason_indexedAt, oldestLt_newOldest, Option.isSome_some, Bool.true_and,
      Option.toList_some]

/-- C5: a transport or parse failure raised at a page fetch makes sync return
the empty list without an exception, with the store state, including every
post admitted earlier in the cycle, unchanged; and sync_post answers none
both on a raised exception and on a response with no posts. -/
theorem sync_failure_containment :
    (∀ (s : ATState) (rest : List (Except Unit Page)) (acc : List Post) (n : Nat) (e : Unit),
        syncGo s (Except.error e :: rest) acc n = (s, [], n + 1)) ∧
    (∀ e : Unit, sync_post (Except.error e) = none) ∧
    (∀ r : GetPostsResponse, r.posts = [] → sync_post (Except.ok r) = none) := by
  refine ⟨fun s rest acc n e => rfl, fun e => rfl, fun r hr => ?_⟩
  rcases r with ⟨ps⟩
  have hps : ps = [] := hr
  subst hps
  rfl

theorem sync_failure_containment_witness :
    sync_post (Except.ok ⟨[]⟩) = none :=
  sync_failure_containment.2.2 ⟨[]⟩ rfl

/-- C9: sanitize maps the spec examples as stated, truncates a 30-character
valid input to 16 characters, and for every input returns a nonempty token of
at most 16 characters drawn from A-Za-z0-9_. -/
theorem sanitize_spec :
    sanitize "Alice.bsky.social" = "Alice" ∧
    sanitize "1 weird name!!" = "_1_weird_name" ∧
    sanitize "" = "_nohandle" ∧
    sanitize "!!!***" = "_nohandle" ∧
    sanitize "abcdefghijklmnopqrstuvwxyzABCD" = "abcdefghijklmnop" ∧
    ∀ f : String, (sanitize f).length ≤ 16 ∧ sanitize f ≠ "" ∧
      ∀ c ∈ (sanitize f).data, isWordChar c = true := by
  refine ⟨by decide, by decide, by decide, by decide, by decide, ?_⟩
  intro f
  obtain ⟨B, hBdef, hBword⟩ : ∃ B : List Char,
      sanitize f = String.mk ((sanitizeTail B).take 16) ∧ ∀ c ∈ B, isWordChar c = true :=
    ⟨_, rfl, fun c hc => (List.mem_filter.mp hc).2⟩
  rw [hBdef]
  refine ⟨?_, ?_, ?_⟩
  · show ((sanitizeTail B).take 16).length ≤ 16
    rw [List.length_take]
    exact min_le_left _ _
  · intro h
    have h2 : (sanitizeTail B).take 16 = [] := string_mk_eq_empty h
    rcases List.take_eq_nil_iff.mp h2 with h3 | h3
    · exact absurd h3 (by decide)
    · exact sanitizeTail_ne_nil B h3
  · intro c hc
    exact sanitizeTail_word B hBword c (List.take_subset _ _ hc)

theorem sanitize_spec_witness : isWordChar 'A' = true :=
  (sanitize_spec.2.2.2.2.2 "Alice.bsky.social").2.2 'A' (by decide)

/-- C10: admitting a feed entry whose post cid is already in the seen-set
leaves the whole store state unchanged, returns none, and in particular does
not attach the entry reason to the previously admitted copy. -/
theorem add_fv_duplicate_frame (s : ATState) (fv : FeedView) (h : fv.post.cid ∈ s.seen) :
    add_fv s fv = (s, none) ∧
    (add_fv s fv).1.posts.map Post.reason = s.posts.map Post.reason := by
  have h1 : add_fv s fv = (s, none) := by
    unfold add_fv
    rw [add_post_dup h]
  exact ⟨h1, by rw [h1]⟩

theorem add_fv_duplicate_frame_witness :
    add_fv wDupState wDupFv2 = (wDupState, none) ∧
    (add_fv wDupState wDupFv2).1.posts.map Post.reason = wDupState.posts.map Post.reason :=
  add_fv_duplicate_frame wDupState wDupFv2 (by decide)

theorem minAt_append (ps : List Post) (p : Post) :
    minAt (ps ++ [p]) = some (match minAt ps with
      | none => p.indexedAt
      | some m => min m p.indexedAt) := by
  unfold minAt
  rw [List.foldl_append]
  rfl

theorem newOldest_eq_min (o : Option Int) (t : Int) :
    newOldest o t = some (match o with
      | none => t
      | some m => min m t) := by
  cases o with
  | none => rfl
  | some w =>
    show (if t < w then some t else some w) = some (min w t)
    by_cases h : t < w
    · rw [if_pos h, min_eq_right (by omega : t ≤ w)]
    · rw [if_neg h, min_eq_left (by omega : w ≤ t)]

theorem storeInv_init : StoreInv initState := by
  refine ⟨fun c => ?_, ?_, rfl⟩
  · simp [initState]
  · simp [initState]

theorem storeInv_add_post {s : ATState} (h : StoreInv s) (p : Post) :
    StoreInv (add_post s p).1 := by
  by_cases hd : p.cid ∈ s.seen
  · rw [add_post_dup hd]
    exact h
  · rw [add_post_fresh hd]
    obtain ⟨h1, h2, h3⟩ := h
    refine ⟨?_, ?_, ?_⟩
    · intro c
      show c ∈ p.cid :: s.seen ↔ c ∈ (s.posts ++ [p]).map Post.cid
      rw [List.map_append, List.mem_cons, List.mem_append, h1 c]
      simp only [List.map_cons, List.map_nil, List.mem_singleton]
      tauto
    · show ((s.posts ++ [p]).map Post.cid).Nodup
      rw [List.map_append, List.nodup_append]
      refine ⟨h2, by simp, ?_⟩
      intro a ha hb
      simp only [List.map_cons, List.map_nil, List.mem_singleton] at hb
      subst hb
      exact hd ((h1 _).mpr ha)
    · show newOldest s.oldest p.indexedAt = minAt (s.posts ++ [p])
      rw [minAt_append, ← h3, newOldest_eq_min]

theorem storeInv_add_fv {s : ATState} (h : StoreInv s) (fv : FeedView) :
    StoreInv (add_fv s fv).1 := by
  by_cases hd : fv.post.cid ∈ s.seen
  · rw [add_fv_dup hd]
    exact h
  · rw [add_fv_fresh hd]
    obtain ⟨h1, h2, h3⟩ := h
    have hcid := applyReason_cid fv.post fv.reason
    have hat := applyReason_indexedAt fv.post fv.reason
    refine ⟨?_, ?_, ?_⟩
    · intro c
      show c ∈ fv.post.cid :: s.seen ↔
        c ∈ (s.posts ++ [applyReason fv.post fv.reason]).map Post.cid
      rw [List.map_append, List.mem_cons, List.mem_append, h1 c]
      simp only [List.map_cons, List.map_nil, List.mem_singleton, hcid]
      tauto
    · show ((s.posts ++ [applyReason fv.post fv.reason]).map Post.cid).Nodup
      rw [List.map_append, List.nodup_append]
      refine ⟨h2, by simp, ?_⟩
      intro a ha hb
      simp only [List.map_cons, List.map_nil, List.mem_singleton, hcid] at hb
      subst hb
      exact hd ((h1 _).mpr ha)
    · show newOldest s.oldest fv.post.indexedAt =
        minAt (s.posts ++ [applyReason fv.post fv.reason])
      rw [minAt_append, hat, ← h3, newOldest_eq_min]

theorem storeInv_applyOps (ops : List StoreOp) : StoreInv (applyOps initState ops) := by
  suffices h : ∀ s, StoreInv s → StoreInv (applyOps s ops) from h initState storeInv_init
  induction ops with
  | nil => exact fun s hs => hs
  | cons op rest ih =>
    intro s hs
    show StoreInv (applyOps (applyOp s op) rest)
    apply ih
    cases op with
    | post p => exact storeInv_add_post hs p
    | fv e => exact storeInv_add_fv hs e

theorem minAt_min (ps : List Post) :
    (minAt ps = none ↔ ps = []) ∧
    ∀ w : Int, minAt ps = some w →
      w ∈ ps.map Post.indexedAt ∧ ∀ t ∈ ps.map Post.indexedAt, w ≤ t := by
  induction ps using List.reverseRecOn with
  | nil =>
    refine ⟨by simp [minAt], ?_⟩
    intro w hw
    cases hw
  | append_singleton l p ihl =>
    constructor
    · rw [minAt_append]
      constructor
      · intro hx
        cases hx
      · intro hx
        exact absurd hx (by simp)
    · intro w hw
      rw [minAt_append] at hw
      injection hw with hw
      rcases hml : minAt l with _ | m
      · have hl := (ihl.1).mp hml
        subst hl
        rw [hml] at hw
        have hw2 : p.indexedAt = w := hw
        subst hw2
        simp
      · rw [hml] at hw
        have hw2 : min m p.indexedAt = w := hw
        obtain ⟨hmem, hmin⟩ := ihl.2 m hml
        constructor
        · rw [List.map_append, List.mem_append]
          by_cases hc : m ≤ p.indexedAt
          · left
            rw [← hw2, min_eq_left hc]
            exact hmem
          · right
            rw [← hw2, min_eq_right (by omega : p.indexedAt ≤ m)]
            simp
        · intro t ht
          rw [List.map_append, List.mem_append] at ht
          rcases ht with ht | ht
          · rw [← hw2]
            exact le_trans (min_le_left _ _) (hmin t ht)
          · simp only [List.map_cons, List.map_nil, List.mem_singleton] at ht
            subst ht
            rw [← hw2]
            exact min_le_right _ _

/-- C3: after any sequence of admissions from the empty store, a cid is in
the seen-set iff it occurs exactly once among the cids of the ordered posts
sequence; the watermark is unset exactly when no post was admitted and
otherwise equals the minimum derived timestamp of the admitted posts; and a
second admission of an already seen cid is a no-op returning none. -/
theorem store_admission_invariant (ops : List StoreOp) (s : ATState)
    (hs : s = applyOps initState ops) :
    (∀ c : String, c ∈ s.seen ↔ (s.posts.map Post.cid).count c = 1) ∧
    (s.posts = [] → s.oldest = none) ∧
    (∀ w : Int, s.oldest = some w →
      w ∈ s.posts.map Post.indexedAt ∧ ∀ t ∈ s.posts.map Post.indexedAt, w ≤ t) ∧
    (s.posts ≠ [] → (s.oldest).isSome = true) ∧
    (∀ p : Post, p.cid ∈ s.seen → add_post s p = (s, none)) := by
  subst hs
  obtain ⟨h1, h2, h3⟩ := storeInv_applyOps ops
  refine ⟨?_, ?_, ?_, ?_, fun p hp => add_post_dup hp⟩
  · intro c
    rw [h1 c]
    constructor
    · intro hc
      exact List.count_eq_one_of_mem h2 hc
    · intro hc
      by_contra hnc
      rw [List.count_eq_zero_of_not_mem hnc] at hc
      exact absurd hc (by decide)
  · intro hp
    rw [h3, hp]
    rfl
  · intro w hw
    rw [h3] at hw
    exact (minAt_min _).2 w hw
  · intro hp
    rw [h3]
    rcases hm : minAt (applyOps initState ops).posts with _ | m
    · exact absurd ((minAt_min _).1.mp hm) hp
    · rfl

theorem store_admission_invariant_witness :
    ("c0" ∈ (applyOps initState wOps).seen ↔
      ((applyOps initState wOps).posts.map Post.cid).count "c0" = 1) ∧
    add_post (applyOps initState wOps) (mkPost "c0" 99) = (applyOps initState wOps, none) :=
  ⟨(store_admission_invariant wOps _ rfl).1 "c0",
   (store_admission_invariant wOps _ rfl).2.2.2.2 (mkPost "c0" 99) (by decide)⟩

theorem splitNl_no_breaks : ∀ (input cur : List Char),
    (∀ c ∈ cur, c ≠ '\r' ∧ c ≠ '\n') →
    ∀ piece ∈ splitNl input cur, ∀ c ∈ piece.data, c ≠ '\r' ∧ c ≠ '\n' := by
  intro input cur
  induction input, cur using splitNl.induct with
  | case1 cur =>
    intro hcur piece hp c hc
    simp only [splitNl, List.mem_singleton] at hp
    subst hp
    have hc2 : c ∈ cur.reverse := hc
    exact hcur c (List.mem_reverse.mp hc2)
  | case2 rest cur ih =>
    intro hcur piece hp c hc
    simp only [splitNl, List.mem_cons] at hp
    rcases hp with hp | hp
    · subst hp
      have hc2 : c ∈ cur.reverse := hc
      exact hcur c (List.mem_reverse.mp hc2)
    · exact ih (by simp) piece hp c hc
  | case3 rest cur hne ih =>
    intro hcur piece hp c hc
    rw [splitNl] at hp
    · rcases List.mem_cons.mp hp with hp | hp
      · subst hp
        have hc2 : c ∈ cur.reverse := hc
        exact hcur c (List.mem_reverse.mp hc2)
      · exact ih (by simp) piece hp c hc
    · exact hne
  | case4 rest cur ih =>
    intro hcur piece hp c hc
    simp only [splitNl, List.mem_cons] at hp
    rcases hp with hp | hp
    · subst hp
      have hc2 : c ∈ cur.reverse := hc
      exact hcur c (List.mem_reverse.mp hc2)
    · exact ih (by simp) piece hp c hc
  | case5 c0 rest cur hne1 hne2 hne3 ih =>
    intro hcur piece hp c hc
    rw [splitNl] at hp
    · refine ih ?_ piece hp c hc
      intro d hd
      rcases List.mem_cons.mp hd with hd | hd
      · subst hd
        exact ⟨fun hx => hne2 hx, fun hx => hne3 hx⟩
      · exact hcur d hd
    · exact hne1
    · exact hne2
    · exact hne3

/-- C7 counterexample: the kept lines are not trimmed, so the body with an
inner trailing space flattens to a line that retains the space, refuting the
claim that each resulting line is trimmed. -/
theorem format_record_untrimmed_cex :
    format_record untrimmedRec = ["a ", "b"] ∧ format_record untrimmedRec ≠ ["a", "b"] := by
  exact ⟨rfl, by decide⟩

/-- C7 (amended): text flattening strips the whole raw body, splits it on any
of the line break sequences, and drops blank or whitespace-only lines while
keeping the surviving lines untrimmed; the spec example flattens to exactly
the three lines, a record with no text yields zero lines, and every output
line is non-blank and free of line-break characters. -/
theorem format_record_flattening :
    format_record (Rec.mk "line1\r\n\r\nline2\r  \r\nline3" none [] EmbO.none)
        = ["line1", "line2", "line3"] ∧
    (∀ re : Rec, re.text = "" → format_record re = []) ∧
    (∀ (re : Rec) (l : String), l ∈ format_record re →
      pyStrip l ≠ "" ∧ ∀ c ∈ l.data, c ≠ '\r' ∧ c ≠ '\n') := by
  refine ⟨by decide, ?_, ?_⟩
  · intro re h
    unfold format_record
    rw [if_pos h]
  · intro re l hl
    unfold format_record at hl
    by_cases h : re.text = ""
    · rw [if_pos h] at hl
      simp at hl
    · rw [if_neg h] at hl
      have h2 := List.mem_filter.mp hl
      refine ⟨?_, splitNl_no_breaks _ [] (by simp) l h2.1⟩
      have h3 := h2.2
      rw [bne_iff_ne] at h3
      exact h3

theorem format_record_flattening_witness :
    format_record (Rec.mk "" none [] EmbO.none) = [] :=
  format_record_flattening.2.1 (Rec.mk "" none [] EmbO.none) rfl

/-- C1 counterexample: a post reposted by Bob (the reason names Bob as the
resharing author) is rendered with a repost header naming Alice, the post
author, not Bob; the header the claim requires is absent from the output. -/
theorem format_post_repost_header_cex :
    format_post initState repostPost (Except.error ()) =
      some (initState, ["↻ Alice (@alice.bsky.social):", " | hello"]) ∧
    repostPost.reason = some ⟨some bobA⟩ ∧
    ¬ "↻ Bob (@bob.bsky.social):" ∈ ["↻ Alice (@alice.bsky.social):", " | hello"] := by
  exact ⟨rfl, rfl, by decide⟩

/-- C1 (amended): when a rendered post carries a repost reason with a by
author, render wraps the body lines, not the reply-parent lines, with the
attribution header naming the post author (post.author, the original author,
not the reason by author), and indents each body line with a pipe marker,
while the reply-parent lines remain un-indented and precede this block. -/
theorem format_post_repost_wrapping (s : ATState) (post : Post)
    (resp : Except Unit GetPostsResponse) (r : Reason) (b : AuthorV)
    (h1 : post.reason = some r) (h2 : r.by_ = some b) :
    format_post s post resp = some ((replySection s post resp).1,
      (replySection s post resp).2.1 ++
        ("↻ " ++ pyStr post.author.displayName ++ " (@" ++ post.author.handle ++ "):")
          :: (bodyLines post).map (fun l => " | " ++ l)) := by
  unfold format_post
  rcases hr : replySection s post resp with ⟨s1, lines, rok⟩
  rw [h1]
  simp [h2]

theorem format_post_repost_wrapping_witness :
    format_post initState repostPost (Except.error ()) =
      some ((replySection initState repostPost (Except.error ())).1,
        (replySection initState repostPost (Except.error ())).2.1 ++
          ("↻ " ++ pyStr repostPost.author.displayName ++
            " (@" ++ repostPost.author.handle ++ "):")
            :: (bodyLines repostPost).map (fun l => " | " ++ l)) :=
  format_post_repost_wrapping initState repostPost (Except.error ()) ⟨some bobA⟩ bobA rfl rfl

/-- C6: rendering an in-context reply (parent cid already in the seen-set, so
reply_ok holds and no parent header is added) with no repost reason and a
body that flattens to zero lines does not succeed: the code reaches the
Python statement lines[0] = ... on an empty list and raises IndexError,
modelled by the none result.  This contradicts the claim (and the spec) that
rendering always proceeds with reduced output. -/
theorem format_post_empty_reply_raises :
    format_post stateWithParent replyEmptyPost (Except.error ()) = none := rfl

/-- C8 counterexample: an alt text of exactly 50 characters is already
truncated, because the trailing space appended at line 177 makes the measured
string 51 characters long; the claim says no truncation occurs at 50 or
fewer characters, so the untruncated line it requires is absent. -/
theorem alt_truncation_at50_cex :
    format_embed (EmbO.some (Emb.images [img50])) "u" =
      ["📷 " ++ String.mk (List.replicate 47 'a') ++ "..." ++ "U" ++ " "] ∧
    ¬ ("📷 " ++ alt50 ++ " " ++ "U" ++ " ") ∈ format_embed (EmbO.some (Emb.images [img50])) "u" := by
  exact ⟨by decide, by decide⟩

/-- C8 (amended): the alt text is newline-collapsed, trimmed, and given a
trailing space; it is truncated to its first 47 characters plus a literal
ellipsis exactly when the trimmed result exceeds 49 characters (that is, when
the trimmed result plus the trailing space exceeds 50); a 60-character alt
text renders as exactly 47 characters followed by the ellipsis. -/
theorem alt_truncation_amended :
    (∀ a : String, a ≠ "" → 49 < (pyStrip (collapseNl a)).length →
      altRender (some a) = String.mk ((pyStrip (collapseNl a)).data.take 47) ++ "...") ∧
    (∀ a : String, a ≠ "" → (pyStrip (collapseNl a)).length ≤ 49 →
      altRender (some a) = pyStrip (collapseNl a) ++ " ") ∧
    altRender (some alt60) = String.mk (List.replicate 47 'a') ++ "..." := by
  have hlen : ∀ t : String, (t ++ " ").length = t.length + 1 := by
    intro t
    rw [String.length_append]
    rfl
  refine ⟨?_, ?_, by decide⟩
  · intro a ha hl
    have h0 : altRender (some a) =
        (if (if a = "" then "" else pyStrip (collapseNl a) ++ " ").length > 50 then
          String.mk ((if a = "" then "" else pyStrip (collapseNl a) ++ " ").data.take 47) ++ "..."
        else (if a = "" then "" else pyStrip (collapseNl a) ++ " ")) := rfl
    rw [h0, if_neg ha, hlen, if_pos (by omega)]
    have hdata : (pyStrip (collapseNl a) ++ " ").data
        = (pyStrip (collapseNl a)).data ++ [' '] := by
      rw [String.data_append]
    rw [hdata, List.take_append_of_le_length ?_]
    have hdl : (pyStrip (collapseNl a)).data.length = (pyStrip (collapseNl a)).length := rfl
    omega
  · intro a ha hl
    have h0 : altRender (some a) =
        (if (if a = "" then "" else pyStrip (collapseNl a) ++ " ").length > 50 then
          String.mk ((if a = "" then "" else pyStrip (collapseNl a) ++ " ").data.take 47) ++ "..."
        else (if a = "" then "" else pyStrip (collapseNl a) ++ " ")) := rfl
    rw [h0, if_neg ha, hlen, if_neg (by omega)]

theorem alt_truncation_amended_witness :
    altRender (some alt60) = String.mk ((pyStrip (collapseNl alt60)).data.take 47) ++ "..." :=
  alt_truncation_amended.1 alt60 (by decide) (by decide)

theorem syncGo_ok1 (s : ATState) (fvs : List FeedView) (cur : Option String)
    (rest : List (Except Unit Page)) (acc : List Post) (n : Nat) :
    syncGo s (Except.ok (Page.mk fvs cur) :: rest) acc n =
      (match syncFeedLoop cur s fvs none acc with
        | (s1, c1, acc1) =>
          if cursorTruthy c1 then syncGo s1 rest acc1 (n + 1) else (s1, acc1, n + 1)) := rfl

theorem syncFeedLoop_dup (tlC : Option String) (s : ATState) (fv : FeedView)
    (acc : List Post) (h : fv.post.cid ∈ s.seen) :
    syncFeedLoop tlC s [fv] none acc = (s, none, acc) := by
  show (match syncEntryStep tlC s fv acc with
    | (s1, c1, acc1) => syncFeedLoop tlC s1 [] c1 acc1) = (s, none, acc)
  unfold syncEntryStep
  rw [add_fv_dup h]
  rfl

theorem syncFeedLoop_fresh (tlC : Option String) (s : ATState) (fv : FeedView)
    (acc : List Post) (w : Int) (hs : s.oldest = some w) (h : ¬ fv.post.cid ∈ s.seen)
    (ht : w < fv.post.indexedAt) :
    syncFeedLoop tlC s [fv] none acc =
      (ATState.mk (fv.post.cid :: s.seen) (some w)
        (s.posts ++ [applyReason fv.post fv.reason]),
        tlC, acc ++ [applyReason fv.post fv.reason]) := by
  have hno : newOldest s.oldest fv.post.indexedAt = some w := by
    rw [hs]
    show (if fv.post.indexedAt < w then some fv.post.indexedAt else some w) = some w
    rw [if_neg (by omega)]
  have hstep : syncEntryStep tlC s fv acc =
      (ATState.mk (fv.post.cid :: s.seen) (some w)
        (s.posts ++ [applyReason fv.post fv.reason]), tlC,
        acc ++ [applyReason fv.post fv.reason]) := by
    unfold syncEntryStep
    rw [add_fv_fresh h, hno]
    show (if oldestLt (some w) (applyReason fv.post fv.reason).indexedAt then
        (ATState.mk (fv.post.cid :: s.seen) (some w)
          (s.posts ++ [applyReason fv.post fv.reason]), tlC,
          acc ++ [applyReason fv.post fv.reason])
      else (ATState.mk (fv.post.cid :: s.seen) (some w)
          (s.posts ++ [applyReason fv.post fv.reason]), none, acc)) = _
    rw [applyReason_indexedAt]
    have hol : oldestLt (some w) fv.post.indexedAt = true := decide_eq_true ht
    rw [hol]
    simp only [if_true]
  show (match syncEntryStep tlC s fv acc with
    | (s1, c1, acc1) => syncFeedLoop tlC s1 [] c1 acc1) = _
  rw [hstep]
  rfl

theorem syncGo_run (dfv : FeedView) (dpage : Page) (w : Int) (hdp : dpage.feed = [dfv]) :
    ∀ (frs : List (FeedView × String)) (s : ATState) (acc : List Post) (n : Nat),
      s.oldest = some w →
      (∀ x ∈ frs, ¬ x.1.post.cid ∈ s.seen ∧ w < x.1.post.indexedAt ∧ x.2 ≠ "") →
      (frs.map (fun x => x.1.post.cid)).Nodup →
      (dfv.post.cid ∈ s.seen ∨ dfv.post.cid ∈ frs.map (fun x => x.1.post.cid)) →
      ∃ (s1 : ATState) (ps : List Post),
        syncGo s (frs.map (fun x => Except.ok (Page.mk [x.1] (some x.2)))
            ++ [Except.ok dpage]) acc n
          = (s1, acc ++ ps, n + (frs.length + 1)) ∧ ps.length = frs.length := by
  intro frs
  induction frs with
  | nil =>
    intro s acc n ho hfr hnd hdup
    have hdup2 : dfv.post.cid ∈ s.seen := by
      rcases hdup with h | h
      · exact h
      · simp at h
    refine ⟨s, [], ?_, rfl⟩
    rw [List.map_nil, List.nil_append]
    rcases dpage with ⟨dfeed, dcur⟩
    have hdf : dfeed = [dfv] := hdp
    subst hdf
    rw [syncGo_ok1, syncFeedLoop_dup dcur s dfv acc hdup2]
    simp [cursorTruthy]
  | cons x rest ih =>
    intro s acc n ho hfr hnd hdup
    obtain ⟨fv, cstr⟩ := x
    obtain ⟨hfresh, hlt, hcne⟩ := hfr (fv, cstr) (List.mem_cons_self _ _)
    rw [List.map_cons] at hnd
    have hct : cursorTruthy (some cstr) = true := decide_eq_true hcne
    have hone : syncGo s (((fv, cstr) :: rest).map
          (fun x => Except.ok (Page.mk [x.1] (some x.2))) ++ [Except.ok dpage]) acc n
        = syncGo (ATState.mk (fv.post.cid :: s.seen) (some w)
            (s.posts ++ [applyReason fv.post fv.reason]))
          (rest.map (fun x => Except.ok (Page.mk [x.1] (some x.2))) ++ [Except.ok dpage])
          (acc ++ [applyReason fv.post fv.reason]) (n + 1) := by
      rw [List.map_cons, List.cons_append, syncGo_ok1,
        syncFeedLoop_fresh (some cstr) s fv acc w ho hfresh hlt]
      show (if cursorTruthy (some cstr) then
          syncGo (ATState.mk (fv.post.cid :: s.seen) (some w)
            (s.posts ++ [applyReason fv.post fv.reason]))
            (rest.map (fun x => Except.ok (Page.mk [x.1] (some x.2))) ++ [Except.ok dpage])
            (acc ++ [applyReason fv.post fv.reason]) (n + 1)
        else (ATState.mk (fv.post.cid :: s.seen) (some w)
            (s.posts ++ [applyReason fv.post fv.reason]),
            acc ++ [applyReason fv.post fv.reason], n + 1)) = _
      rw [hct]
      simp only [if_true]
    have hfr2 : ∀ y ∈ rest, ¬ y.1.post.cid ∈ (ATState.mk (fv.post.cid :: s.seen) (some w)
        (s.posts ++ [applyReason fv.post fv.reason])).seen ∧
        w < y.1.post.indexedAt ∧ y.2 ≠ "" := by
      intro y hy
      obtain ⟨a, b, c⟩ := hfr y (List.mem_cons_of_mem _ hy)
      refine ⟨?_, b, c⟩
      intro hmem
      have hmem2 : y.1.post.cid ∈ fv.post.cid :: s.seen := hmem
      rcases List.mem_cons.mp hmem2 with he | he
      · exact (List.nodup_cons.mp hnd).1 (he ▸ List.mem_map_of_mem _ hy)
      · exact a he
    have hnd2 : (rest.map (fun x => x.1.post.cid)).Nodup := (List.nodup_cons.mp hnd).2
    have hdup2 : dfv.post.cid ∈ (ATState.mk (fv.post.cid :: s.seen) (some w)
        (s.posts ++ [applyReason fv.post fv.reason])).seen ∨
        dfv.post.cid ∈ rest.map (fun x => x.1.post.cid) := by
      rcases hdup with h | h
      · left
        exact List.mem_cons_of_mem _ h
      · rw [List.map_cons] at h
        rcases List.mem_cons.mp h with h | h
        · left
          rw [h]
          exact List.mem_cons_self _ _
        · right
          exact h
    obtain ⟨s1, ps, hrun, hlenps⟩ := ih (ATState.mk (fv.post.cid :: s.seen) (some w)
        (s.posts ++ [applyReason fv.post fv.reason]))
      (acc ++ [applyReason fv.post fv.reason]) (n + 1) rfl hfr2 hnd2 hdup2
    refine ⟨s1, applyReason fv.post fv.reason :: ps, ?_, by simp [hlenps]⟩
    have e1 : (acc ++ [applyReason fv.post fv.reason]) ++ ps
        = acc ++ (applyReason fv.post fv.reason :: ps) := by
      simp
    have e2 : n + 1 + (rest.length + 1) = n + (rest.length + 1 + 1) := by omega
    rw [hone, hrun, e1, e2]
    simp

/-- C4: starting from a store with a set watermark, if the simulated feed
answers each of the first N-1 single-entry page requests with a fresh post
strictly newer than the current watermark (which never moves during such a
run) together with a continuation cursor, and the Nth page repeats an already
admitted cid, then sync_timeline performs exactly N page fetches and returns
exactly N-1 new posts. -/
theorem sync_novelty_halts_paging (s0 : ATState) (w0 : Int)
    (frs : List (FeedView × String)) (dfv : FeedView) (dpage : Page)
    (h0 : s0.oldest = some w0)
    (h1 : ∀ x ∈ frs, ¬ x.1.post.cid ∈ s0.seen ∧ w0 < x.1.post.indexedAt ∧ x.2 ≠ "")
    (h2 : (frs.map (fun x => x.1.post.cid)).Nodup)
    (h3 : dpage.feed = [dfv])
    (h4 : dfv.post.cid ∈ s0.seen ∨ dfv.post.cid ∈ frs.map (fun x => x.1.post.cid)) :
    (sync_timeline s0 (frs.map (fun x => Except.ok (Page.mk [x.1] (some x.2)))
        ++ [Except.ok dpage])).2.2 = frs.length + 1 ∧
    (sync_timeline s0 (frs.map (fun x => Except.ok (Page.mk [x.1] (some x.2)))
        ++ [Except.ok dpage])).2.1.length = frs.length := by
  obtain ⟨s1, ps, hrun, hlen⟩ := syncGo_run dfv dpage w0 h3 frs s0 [] 0 h0 h1 h2 h4
  unfold sync_timeline
  rw [hrun]
  constructor
  · show 0 + (frs.length + 1) = frs.length + 1
    omega
  · show ([] ++ ps : List Post).length = frs.length
    simpa using hlen

theorem sync_novelty_halts_paging_witness :
    (sync_timeline wState (wFrs.map (fun x => Except.ok (Page.mk [x.1] (some x.2)))
        ++ [Except.ok wDupPage])).2.2 = 3 ∧
    (sync_timeline wState (wFrs.map (fun x => Except.ok (Page.mk [x.1] (some x.2)))
        ++ [Except.ok wDupPage])).2.1.length = 2 :=
  sync_novelty_halts_paging wState 10 wFrs wDupFv wDupPage (by decide) (by decide)
    (by decide) rfl (by decide)
